import Mathlib

/-
Verification development for the ganging optimizer (src/api/optimizer.py).

Modelling conventions:
- All dimensions and quantities are natural numbers, as in the source
  (integer millimetres, integer sheet counts).
- Python floats (costs, prices, dollar rate) are modelled as exact
  rationals.  The arithmetic performed by the source on these values is
  exact decimal arithmetic at the scales exercised here.
- Python `int(x)` (truncation toward zero) is modelled by `pyInt`;
  Python `round(x, 2)` (round-half-even to 2 decimals) by `round2`;
  CP-SAT `AddDivisionEquality` (integer division rounded toward zero)
  by `Int.tdiv`.
- The CP-SAT solver itself is external; it is modelled by its contract:
  any solution list it can produce satisfies `ValidSolverRun` (each
  reported assignment satisfies every posted constraint, and the
  iterative re-solve loop makes the integer objective values strictly
  increase).  Theorems about the plan solver quantify over such runs.
- The third-party `rectpack` packer is not part of the repository
  sources; the candidate generator is parameterised over a packer, and
  `shelfPacker` (modelled from the spec) instantiates it where concrete
  runs are evaluated.
- Wall-clock timeouts are modelled as never firing (the timeout branch
  of the generator returns what was found so far; here the full run).
-/

set_option maxRecDepth 4000

/-! Numeric helpers mirroring Python / CP-SAT primitives. -/

/-- Ceiling division on naturals; mirrors `math.ceil(a / b)` on
nonnegative integers in the source. -/
def cdiv (a b : ℕ) : ℕ := (a + b - 1) / b

/-- Python `int(q)`: truncation toward zero. -/
def pyInt (q : ℚ) : ℤ := if q < 0 then -⌊-q⌋ else ⌊q⌋

/-- Python `round(q)` to the nearest integer, ties to even (banker's
rounding), as used by `round(x, 2)` in the source. -/
def roundHalfEven (q : ℚ) : ℤ :=
  if q - ⌊q⌋ < 1/2 then ⌊q⌋
  else if 1/2 < q - ⌊q⌋ then ⌊q⌋ + 1
  else if ⌊q⌋ % 2 = 0 then ⌊q⌋ else ⌊q⌋ + 1

/-- Python `round(q, 2)`. -/
def round2 (q : ℚ) : ℚ := (roundHalfEven (q * 100) : ℚ) / 100

/-! Data model, mirroring the dataclasses of the source. -/

structure Size where
  width : ℕ
  length : ℕ
deriving DecidableEq

structure FactorySize where
  width : ℕ
  length : ℕ
  usdPerTon : ℚ
deriving DecidableEq

structure Material where
  id : ℕ
  name : String
  grammage : ℕ
  isSpecialMaterial : Bool
  factorySizes : List FactorySize
deriving DecidableEq

structure Job where
  id : String
  width : ℕ
  length : ℕ
  quantity : ℕ
  rotatable : Bool
  material : Material
  frontInks : ℕ
  backInks : ℕ
  isDuplex : Bool
  samePlatesForBack : Bool
deriving DecidableEq

structure Overage where
  amount : ℕ
  perInk : Bool
deriving DecidableEq

structure CostInfo where
  price : ℚ
  perInk : Bool
  perInkPass : Bool
deriving DecidableEq

structure Machine where
  id : String
  name : String
  printingBodies : Option ℕ
  maxSheetSize : Size
  overage : Overage
  minImpressionsCharge : Option ℕ
  setupCost : CostInfo
  washCost : CostInfo
  impressionCost : CostInfo
deriving DecidableEq

structure Penalties where
  differentPressSheetPenalty : ℤ
  differentFactorySheetPenalty : ℤ
  differentMachinePenalty : ℤ
deriving DecidableEq

structure Options where
  timeoutSeconds : ℕ
  penalties : Penalties
  numberOfSolutions : ℕ
deriving DecidableEq

structure AvailableCutMap where
  forPaperSize : Size
  sheetSizes : List Size
deriving DecidableEq

structure InputData where
  options : Options
  dollarRate : ℚ
  jobs : List Job
  machines : List Machine
  availableCuts : List AvailableCutMap
deriving DecidableEq

/-! Geometry: grid cut (`packer_grid_layout` in the source). -/

structure Pos where
  x : ℕ
  y : ℕ
  width : ℕ
  length : ℕ
deriving DecidableEq

structure GridPlan where
  cutsPerSheet : ℕ
  positions : List Pos
deriving DecidableEq

/-- Row-major grid positions, as the nested `for r / for c` loops of
`packer_grid_layout` produce them. -/
def gridPositions (cols rows cw ch : ℕ) : List Pos :=
  (List.range rows).flatMap (fun r =>
    (List.range cols).map (fun c => ⟨c * cw, r * ch, cw, ch⟩))

/-- Mirrors `packer_grid_layout(sheet_w, sheet_h, cut_w, cut_h)`. -/
def packer_grid_layout (sheetW sheetH cutW cutH : ℕ) : GridPlan :=
  if cutW = 0 ∨ cutH = 0 then ⟨0, []⟩
  else
    let count1 := if cutW ≤ sheetW ∧ cutH ≤ sheetH then (sheetW / cutW) * (sheetH / cutH) else 0
    let pos1 := if cutW ≤ sheetW ∧ cutH ≤ sheetH then gridPositions (sheetW / cutW) (sheetH / cutH) cutW cutH else []
    let count2 := if cutH ≤ sheetW ∧ cutW ≤ sheetH then (sheetW / cutH) * (sheetH / cutW) else 0
    let pos2 := if cutH ≤ sheetW ∧ cutW ≤ sheetH then gridPositions (sheetW / cutH) (sheetH / cutW) cutH cutW else []
    if count2 ≤ count1 then ⟨count1, pos1⟩ else ⟨count2, pos2⟩

/-! Cost model. -/

/-- Printing-needs record; `duplex` encodes the `technique` string of
the source (`DUPLEX` when true, `SIMPLEX` otherwise). -/
structure PrintNeeds where
  duplex : Bool
  totalPlates : ℕ
  passes : ℕ
deriving DecidableEq

/-- Mirrors `get_printing_needs`.  When the machine has no printing
bodies the source computes `passes = float('inf')`, making the machine
unusable; that case is modelled as `none`. -/
def get_printing_needs (frontInks backInks : ℕ) (isDuplex : Bool) (machine : Machine) : Option PrintNeeds :=
  let printingBodies := machine.printingBodies.getD 0
  if printingBodies = 0 then none
  else if isDuplex then
    some ⟨true, frontInks + backInks, cdiv frontInks printingBodies + cdiv backInks printingBodies⟩
  else
    some ⟨false, frontInks, cdiv frontInks printingBodies⟩

structure PrintingCostBreakdown where
  setupCost : ℚ
  washCost : ℚ
  impressionCost : ℚ
  totalPrintingCost : ℚ
deriving DecidableEq

/-- Mirrors `calculate_printing_cost`. -/
def calculate_printing_cost (machine : Machine) (pn : PrintNeeds) (netSheets : ℕ) : PrintingCostBreakdown :=
  let setup := machine.setupCost.price * (if machine.setupCost.perInk then (pn.totalPlates : ℚ) else (pn.passes : ℚ))
  let wash := machine.washCost.price * (if machine.washCost.perInk then (pn.totalPlates : ℚ) else (pn.passes : ℚ))
  let minCharge := machine.minImpressionsCharge.getD 0
  let chargeableSheets := max netSheets minCharge
  let impression :=
    if pn.duplex then ((chargeableSheets : ℚ) / 1000 * machine.impressionCost.price) * 2
    else (chargeableSheets : ℚ) / 1000 * machine.impressionCost.price * (pn.passes : ℚ)
  ⟨setup, wash, impression, setup + wash + impression⟩

/-! Material needs (`calculate_material_needs`). -/

structure MatChoice where
  fs : FactorySize
  needed : ℕ
  plan : GridPlan
deriving DecidableEq

/-- The factory-size options the loop of `calculate_material_needs`
iterates over, in list order, keeping only those with a positive
`cutsPerSheet`. -/
def materialOptionsFor (material : Material) (printingSheet : Size) (totalPrintingSheets : ℕ) : List MatChoice :=
  material.factorySizes.filterMap (fun fs =>
    let plan := packer_grid_layout fs.width fs.length printingSheet.width printingSheet.length
    if 0 < plan.cutsPerSheet then some ⟨fs, cdiv totalPrintingSheets plan.cutsPerSheet, plan⟩
    else none)

/-- One step of the running-best loop of the source (`best` starts as
infinity, replaced exactly when the new key is strictly smaller). -/
def stepMin {α : Type} {β : Type} [LinearOrder β] (key : α → β) (best : Option α) (x : α) : Option α :=
  match best with
  | none => some x
  | some b => if key x < key b then some x else some b

/-- The running-best fold used by the source's selection loops. -/
def pickFirstMinBy {α : Type} {β : Type} [LinearOrder β] (key : α → β) (l : List α) : Option α :=
  l.foldl (stepMin key) none

structure MaterialNeeds where
  totalMaterialCost : ℚ
  factorySize : FactorySize
  quantityNeeded : ℕ
  cuttingPlan : GridPlan
deriving DecidableEq

/-- Mirrors `calculate_material_needs`. -/
def calculate_material_needs (material : Material) (printingSheet : Size) (totalPrintingSheets : ℕ) (dollarRate : ℚ) : Option MaterialNeeds :=
  match pickFirstMinBy (fun c => c.needed) (materialOptionsFor material printingSheet totalPrintingSheets) with
  | none => none
  | some best =>
    let costPerSheet := (((best.fs.width : ℚ) / 1000 * ((best.fs.length : ℚ) / 1000) * (material.grammage : ℚ)) / 1000 / 1000) * best.fs.usdPerTon
    some ⟨(best.needed : ℚ) * costPerSheet * dollarRate, best.fs, best.needed, best.plan⟩

/-! Layout total cost (`calculate_total_layout_cost`). -/

def lookupJob (allJobs : List Job) (jid : String) : Option Job :=
  allJobs.find? (fun j => j.id = jid)

structure PricedLayout where
  layoutId : String
  totalCost : ℚ
  netSheets : ℕ
  machineId : String
  printingSheet : Size
  jobsInLayout : List (String × ℕ)
  materialNeeds : MaterialNeeds
  printNeeds : PrintNeeds
  printingCost : PrintingCostBreakdown
  factorySheetUsedKey : Option Size
deriving DecidableEq

/-- Mirrors `calculate_total_layout_cost`.  The layout's job map is an
association list in insertion order (Python dicts preserve it); the
`details` loop of the source overwrites `material` on each iteration,
so the material of the *last* job wins.  The source never stores a
`'factory_sheet_used'` key on the returned dict, hence
`factorySheetUsedKey := none`. -/
def calculate_total_layout_cost (layoutJobs : List (String × ℕ)) (printingSheet : Size) (allJobs : List Job) (machine : Machine) (dollarRate : ℚ) : Option PricedLayout :=
  if layoutJobs = [] then none
  else
    let resolved := layoutJobs.filterMap (fun p => (lookupJob allJobs p.1).map (fun j => (j, p.2)))
    let netSheets := ((resolved.filterMap (fun p => if 0 < p.2 then some (cdiv p.1.quantity p.2) else none)).foldl max 0)
    if netSheets = 0 then none
    else
      let frontInks := resolved.foldl (fun a p => max a p.1.frontInks) 0
      let backInks := resolved.foldl (fun a p => max a p.1.backInks) 0
      let isDuplex := resolved.foldl (fun a p => a || p.1.isDuplex) false
      match (resolved.map (fun p => p.1.material)).getLast? with
      | none => none
      | some material =>
        match get_printing_needs frontInks backInks isDuplex machine with
        | none => none
        | some pn =>
          let overageSheets := machine.overage.amount * (if machine.overage.perInk then pn.totalPlates else 1)
          let totalPrintingSheets := netSheets + overageSheets
          match calculate_material_needs material printingSheet totalPrintingSheets dollarRate with
          | none => none
          | some mn =>
            let pc := calculate_printing_cost machine pn netSheets
            some ⟨"", mn.totalMaterialCost + pc.totalPrintingCost, netSheets, machine.id,
                  printingSheet, layoutJobs, mn, pn, pc, none⟩

/-! Phase 1: baseline solver (`calculate_base_solution`). -/

/-- Mirrors `get_cuts_for_factory_size`: the Python comparison
`{a, b} == {c, d}` is set equality, i.e. equality up to swapping
width and length. -/
def sizeSetEq (w1 l1 w2 l2 : ℕ) : Bool :=
  (w1 = w2 ∧ l1 = l2) ∨ (w1 = l2 ∧ l1 = w2)

def get_cuts_for_factory_size (factorySize : FactorySize) (availableCutsMaps : List AvailableCutMap) : List Size :=
  match availableCutsMaps.find? (fun m => sizeSetEq m.forPaperSize.width m.forPaperSize.length factorySize.width factorySize.length) with
  | some m => m.sheetSizes
  | none => []

/-- The machine-fit gate used by both the baseline solver and the plan
solver: the printing sheet must fit the machine's maximum sheet size in
either orientation. -/
def sheetFitsMachine (cut : Size) (machine : Machine) : Bool :=
  max cut.width cut.length ≤ max machine.maxSheetSize.width machine.maxSheetSize.length ∧
  min cut.width cut.length ≤ min machine.maxSheetSize.width machine.maxSheetSize.length

/-- The candidate single-job layouts the baseline loop of
`calculate_base_solution` prices for one job, in iteration order
(machines, then factory sizes, then cuts). -/
def baselineOptionsForJob (data : InputData) (job : Job) : List PricedLayout :=
  data.machines.flatMap (fun machine =>
    job.material.factorySizes.flatMap (fun factorySize =>
      (get_cuts_for_factory_size factorySize data.availableCuts).filterMap (fun cut =>
        if sheetFitsMachine cut machine then
          let plan := packer_grid_layout cut.width cut.length job.width job.length
          if plan.cutsPerSheet = 0 then none
          else calculate_total_layout_cost [(job.id, plan.cutsPerSheet)] cut data.jobs machine data.dollarRate
        else none)))

/-- Mirrors `calculate_base_solution`: per job, the strictly-improving
running minimum of total cost over all options; jobs with no option
are silently skipped. -/
def calculate_base_solution (data : InputData) : List PricedLayout × ℚ :=
  data.jobs.foldl (fun acc job =>
    match pickFirstMinBy (fun l => l.totalCost) (baselineOptionsForJob data job) with
    | none => acc
    | some best => (acc.1 ++ [{ best with layoutId := "base_" ++ job.id }], acc.2 + best.totalCost))
    ([], 0)

/-! Phase 2: candidate generator (`generate_candidate_layouts`). -/

structure Placement where
  id : String
  x : ℕ
  y : ℕ
  width : ℕ
  length : ℕ
deriving DecidableEq

/-- A packer takes the multiset of labelled rectangles (in the order
the source adds them) and the bin, and returns the placements it
achieved; packing succeeds when every rectangle was placed. -/
def Packer : Type := List (String × Size) → Size → List Placement

structure Candidate where
  recipe : List (String × ℕ)
  tiraje : ℕ
deriving DecidableEq

structure CandidateLayout where
  jobs : List (String × ℕ)
  printingSheet : Size
  placements : List Placement
deriving DecidableEq

/-- Python `itertools.combinations(xs, n)`: all n-element subsequences
in lexicographic order of positions. -/
def combos {α : Type} : ℕ → List α → List (List α)
  | 0, _ => [[]]
  | _ + 1, [] => []
  | n + 1, x :: xs => ((combos n xs).map (fun c => x :: c)) ++ combos (n + 1) xs

/-- First-occurrence deduplication, mirroring the `f"{w}x{l}"`-keyed
dict comprehension that collects `all_possible_cuts`. -/
def dedupFirst : List Size → List Size
  | [] => []
  | s :: rest => s :: (dedupFirst rest).filter (fun t => !(t = s : Bool))

/-- Mirrors the `quantity_ranges_to_test` loop: for each job of the
subset the count range `[1, maxQty]` with
`maxQty = min(30, sheetArea / jobArea)`; the loop breaks (yielding no
ranges) when a job area or a cap is zero. -/
def quantityRanges : List Job → Size → Option (List (List ℕ))
  | [], _ => some []
  | job :: rest, cut =>
    let jobArea := job.width * job.length
    if jobArea = 0 then none
    else
      let maxQty := min 30 ((cut.width * cut.length) / jobArea)
      if maxQty = 0 then none
      else (quantityRanges rest cut).map (fun rs => (List.range' 1 maxQty) :: rs)

/-- Python `itertools.product(*ranges)`: tuples in lexicographic order,
leftmost coordinate slowest. -/
def cartProduct : List (List ℕ) → List (List ℕ)
  | [] => [[]]
  | r :: rs => r.flatMap (fun q => (cartProduct rs).map (fun t => q :: t))

def jobAreaOf (allJobs : List Job) (jid : String) : ℕ :=
  match lookupJob allJobs jid with
  | some j => j.width * j.length
  | none => 0

/-- Mirrors `tiraje = max(math.ceil(all_jobs[jid].quantity / qty) ...)`. -/
def tirajeOf (allJobs : List Job) (recipe : List (String × ℕ)) : ℕ :=
  (recipe.filterMap (fun p => (lookupJob allJobs p.1).map (fun j => cdiv j.quantity p.2))).foldl max 0

/-- The area-filtered candidate recipes for one `(subset, sheet)` pair,
in `itertools.product` order. -/
def pairCandidates (subset : List Job) (cut : Size) (allJobs : List Job) : List Candidate :=
  match quantityRanges subset cut with
  | none => []
  | some ranges =>
    let ids := subset.map (fun j => j.id)
    (cartProduct ranges).filterMap (fun qs =>
      let recipe := ids.zip qs
      let totalArea := (recipe.map (fun p => jobAreaOf allJobs p.1 * p.2)).sum
      if totalArea ≤ cut.width * cut.length then some ⟨recipe, tirajeOf allJobs recipe⟩
      else none)

instance candTirajeLeDecidable : DecidableRel (fun a b : Candidate => a.tiraje ≤ b.tiraje) :=
  fun a b => Nat.decLe a.tiraje b.tiraje

/-- The candidates sorted ascending by `tiraje` (`candidates.sort` in
the source; Python's sort is stable, as is insertion sort with a
not-strictly-greater test). -/
def sortedCandidates (subset : List Job) (cut : Size) (allJobs : List Job) : List Candidate :=
  List.insertionSort (fun a b => a.tiraje ≤ b.tiraje) (pairCandidates subset cut allJobs)

/-- The rectangles handed to the packer for a recipe: `qty` copies of
each job's rectangle, in recipe order. -/
def expandRects (allJobs : List Job) (recipe : List (String × ℕ)) : List (String × Size) :=
  recipe.flatMap (fun p =>
    match lookupJob allJobs p.1 with
    | some j => List.replicate p.2 (p.1, ⟨j.width, j.length⟩)
    | none => [])

/-- Packing succeeds when every added rectangle was placed,
mirroring `len(packer[0]) == sum(recipe.values())`. -/
def packOk (allJobs : List Job) (packer : Packer) (cut : Size) (c : Candidate) : Bool :=
  (packer (expandRects allJobs c.recipe) cut).length = (c.recipe.map (fun p => p.2)).sum

/-- The per-`(subset, sheet)` body of `generate_candidate_layouts`:
try the sorted candidates in order, and on the first successful packing
emit one candidate layout and stop. -/
def processPair (subset : List Job) (cut : Size) (allJobs : List Job) (packer : Packer) : Option CandidateLayout :=
  match pairCandidates subset cut allJobs with
  | [] => none
  | _ :: _ =>
    ((sortedCandidates subset cut allJobs).find? (packOk allJobs packer cut)).map
      (fun c => ⟨c.recipe, cut, packer (expandRects allJobs c.recipe) cut⟩)

/-- Mirrors `generate_candidate_layouts` (with the wall-clock timeout
modelled as never firing).  Note that the source iterates over subsets
of *all* jobs — `combinations(data.jobs, i)` — and takes the cut sizes
from the *first* job's material; there is no grouping by material. -/
def generate_candidate_layouts (data : InputData) (packer : Packer) : List CandidateLayout :=
  ((List.range (data.jobs.length + 1)).drop 2).flatMap (fun i =>
    (combos i data.jobs).flatMap (fun subset =>
      match subset with
      | [] => []
      | j0 :: _ =>
        (dedupFirst (j0.material.factorySizes.flatMap
            (fun fs => get_cuts_for_factory_size fs data.availableCuts))).flatMap (fun cut =>
          (processPair subset cut data.jobs packer).toList)))

/-- Modelled from the spec: the 2D rectangle packer (the third-party
`rectpack` library, absent from the repository sources).  The spec
allows any deterministic packer that places all rectangles when it can
and reports failure otherwise; this is a simple left-to-right shelf
packer without rotation.  Rectangles it cannot place are dropped, so
packing succeeds exactly when every rectangle was placed. -/
def shelfPacker : Packer := fun rects bin =>
  (rects.foldl (fun (st : ℕ × ℕ × ℕ × List Placement) r =>
    let (x, y, rowH, acc) := st
    let (rid, sz) := r
    if x + sz.width ≤ bin.width ∧ y + sz.length ≤ bin.length then
      (x + sz.width, y, max rowH sz.length, acc ++ [⟨rid, x, y, sz.width, sz.length⟩])
    else if sz.width ≤ bin.width ∧ y + rowH + sz.length ≤ bin.length then
      (sz.width, y + rowH, sz.length, acc ++ [⟨rid, 0, y + rowH, sz.width, sz.length⟩])
    else st) (0, 0, 0, [])).2.2.2

/-! Phase 3: plan solver (`solve_optimal_plan`) and output assembly. -/

/-- Mirrors the viable-layout construction at the top of
`solve_optimal_plan`: the base layouts followed by every ganging
candidate priced on every machine that passes the fit gate. -/
def buildViableLayouts (data : InputData) (baseLayouts : List PricedLayout) (cands : List CandidateLayout) : List PricedLayout :=
  baseLayouts ++ (cands.enum.flatMap (fun ic =>
    data.machines.filterMap (fun machine =>
      if sheetFitsMachine ic.2.printingSheet machine then
        (calculate_total_layout_cost ic.2.jobs ic.2.printingSheet data.jobs machine data.dollarRate).map
          (fun pl => { pl with layoutId := "ganging_" ++ toString ic.1 ++ "_" ++ machine.id })
      else none)))

/-- One CP-SAT solution: the set of selected layout ids (the layouts
whose boolean variable is 1) and the value of `total_cost_var`
(integer cents). -/
structure SolverSolution where
  selected : List String
  cost : ℤ
deriving DecidableEq

def lookupCount (layoutJobs : List (String × ℕ)) (jid : String) : Option ℕ :=
  (layoutJobs.find? (fun p => p.1 = jid)).map (fun p => p.2)

def layoutSelected (sol : SolverSolution) (l : PricedLayout) : Bool :=
  sol.selected.contains l.layoutId

/-- Items produced for a job by the selected layouts:
`Σ counts(l, job) · netSheets(l)` over selected layouts containing the
job. -/
def producedTotal (viable : List PricedLayout) (sol : SolverSolution) (job : Job) : ℕ :=
  ((viable.filter (fun l => layoutSelected sol l)).filterMap
    (fun l => (lookupCount l.jobsInLayout job.id).map (fun c => c * l.netSheets))).sum

def jobHasLayout (viable : List PricedLayout) (job : Job) : Bool :=
  viable.any (fun l => (lookupCount l.jobsInLayout job.id).isSome)

/-- The demand constraints exactly as the source posts them: the model
receives `sum(produced_expr) >= quantity` *only when* `produced_expr`
is nonempty, i.e. only for jobs appearing in at least one viable
layout. -/
def demandOk (jobs : List Job) (viable : List PricedLayout) (sol : SolverSolution) : Bool :=
  jobs.all (fun job => !(jobHasLayout viable job) || decide (job.quantity ≤ producedTotal viable sol job))

/-- The value the model forces onto `total_cost_var`:
`Σ use[l] · int(totalCost(l) · 100)`. -/
def solutionCostOf (viable : List PricedLayout) (sol : SolverSolution) : ℤ :=
  ((viable.filter (fun l => layoutSelected sol l)).map (fun l => pyInt (l.totalCost * 100))).sum

/-- Successive reported solutions have strictly increasing integer
costs (each iteration adds the constraint `total_cost_var > cost`). -/
def strictlyIncreasingCosts : List SolverSolution → Bool
  | [] => true
  | [_] => true
  | a :: b :: rest => decide (a.cost < b.cost) && strictlyIncreasingCosts (b :: rest)

theorem strictlyIncreasingCosts_chain' :
    ∀ {sols : List SolverSolution}, strictlyIncreasingCosts sols = true →
      List.Chain' (fun a b => a.cost < b.cost) sols
  | [], _ => List.chain'_nil
  | [_], _ => List.chain'_singleton _
  | a :: b :: rest, h => by
    have h' : a.cost < b.cost ∧ strictlyIncreasingCosts (b :: rest) = true := by
      simpa [strictlyIncreasingCosts] using h
    exact List.Chain'.cons h'.1 (strictlyIncreasingCosts_chain' h'.2)

/-- The contract of the iterative CP-SAT loop of `solve_optimal_plan`:
every reported solution selects existing layouts, satisfies every
posted demand constraint and has the model's cost value; and because
each iteration adds `total_cost_var > cost`, the reported integer
costs strictly increase. -/
def ValidSolverRun (jobs : List Job) (viable : List PricedLayout) (sols : List SolverSolution) : Prop :=
  strictlyIncreasingCosts sols = true ∧
  ∀ sol ∈ sols,
    (∀ s ∈ sol.selected, ∃ l ∈ viable, l.layoutId = s) ∧
    demandOk jobs viable sol = true ∧
    sol.cost = solutionCostOf viable sol

instance validSolverRunDecidable (jobs : List Job) (viable : List PricedLayout) (sols : List SolverSolution) : Decidable (ValidSolverRun jobs viable sols) :=
  inferInstanceAs (Decidable
    (strictlyIncreasingCosts sols = true ∧
     ∀ sol ∈ sols,
       (∀ s ∈ sol.selected, ∃ l ∈ viable, l.layoutId = s) ∧
       demandOk jobs viable sol = true ∧
       sol.cost = solutionCostOf viable sol))

structure PlanItem where
  id : String
  sheets : ℕ
  costForThisPlanItem : ℚ
deriving DecidableEq

structure GangedEntry where
  gangedTotalCost : ℚ
  productionPlan : List PlanItem
deriving DecidableEq

/-- How `solve_optimal_plan` renders one solution: `gangedTotalCost` is
`cost / 100`, and each selected layout contributes a plan item with its
`net_sheets` and its float cost rounded to 2 decimals. -/
def solutionEntry (viable : List PricedLayout) (sol : SolverSolution) : GangedEntry :=
  ⟨(sol.cost : ℚ) / 100,
   (viable.filter (fun l => layoutSelected sol l)).map
     (fun l => ⟨l.layoutId, l.netSheets, round2 l.totalCost⟩)⟩

instance entryCostLeDecidable : DecidableRel (fun a b : GangedEntry => a.gangedTotalCost ≤ b.gangedTotalCost) :=
  fun a b => inferInstanceAs (Decidable (a.gangedTotalCost ≤ b.gangedTotalCost))

/-- The `gangedSolutions` assembly of `main`: when there are no viable
layouts the solver is never called (`solve_optimal_plan` returns
`None`); otherwise the solver's solutions are filtered to those
strictly cheaper than the *unrounded* base cost, sorted ascending by
cost, and truncated to `numberOfSolutions`. -/
def gangedOutput (baseCost : ℚ) (numberOfSolutions : ℕ) (viable : List PricedLayout) (sols : List SolverSolution) : List GangedEntry :=
  if viable.isEmpty then []
  else
    ((List.insertionSort (fun a b => a.gangedTotalCost ≤ b.gangedTotalCost)
        ((sols.map (solutionEntry viable)).filter (fun e => decide (e.gangedTotalCost < baseCost)))).take
      numberOfSolutions)

structure Output where
  baselineTotalCost : ℚ
  baselineLayouts : List PricedLayout
  gangedSolutions : List GangedEntry
deriving DecidableEq

/-- The full pipeline of `main` (parsing aside): baseline, candidate
generation, viable-layout pricing, then the solver (abstracted by the
solution list it reports) and the output assembly.  The source has no
error path for a job that fits nowhere: such a job is skipped by the
baseline loop and gets no demand constraint. -/
def runPipeline (data : InputData) (packer : Packer) (sols : List SolverSolution) : Output :=
  let base := calculate_base_solution data
  let cands := generate_candidate_layouts data packer
  let viable := buildViableLayouts data base.1 cands
  ⟨round2 base.2, base.1, gangedOutput base.2 data.options.numberOfSolutions viable sols⟩

/-- Items produced for a job according to a *reported* production plan
(reading the plan items back against the layout list, as the claim's
invariant is phrased). -/
def producedOfPlan (viable : List PricedLayout) (plan : List PlanItem) (job : Job) : ℕ :=
  (plan.filterMap (fun it =>
    (viable.find? (fun l => l.layoutId = it.id)).bind
      (fun l => (lookupCount l.jobsInLayout job.id).map (fun c => c * l.netSheets)))).sum

/-! The objective's penalty term, as the CP model of the source builds
it.  `num_machines` and `num_ps` count the distinct machines and
printing-sheet sizes bound by the selected layouts; `num_fs` counts the
distinct `'factory_sheet_used'` keys — a key the source never stores on
any layout, so the count is always the number of `some` values of
`factorySheetUsedKey` (zero).  Each kind's product with its penalty
percentage is divided by 100 with CP-SAT division (rounded toward
zero). -/

def codeObjectivePenalty (selected : List PricedLayout) (p : Penalties) : ℤ :=
  let tc := (selected.map (fun l => pyInt (l.totalCost * 100))).sum
  let nM := ((selected.map (fun l => l.machineId)).dedup).length
  let nPS := ((selected.map (fun l => (l.printingSheet.width, l.printingSheet.length))).dedup).length
  let nFS := (((selected.filterMap (fun l => l.factorySheetUsedKey)).map (fun s => (s.width, s.length))).dedup).length
  (tc * ((nM : ℤ) - 1) * p.differentMachinePenalty).tdiv 100 +
  (tc * ((nPS : ℤ) - 1) * p.differentPressSheetPenalty).tdiv 100 +
  (tc * ((nFS : ℤ) - 1) * p.differentFactorySheetPenalty).tdiv 100

/-- The penalty as the claim states it: a single combined expression
in which `numFS` counts the distinct *factory sheets actually bound*
by the selected layouts (via their material needs). -/
def claimPenalty (selected : List PricedLayout) (p : Penalties) : ℚ :=
  let tc := ((selected.map (fun l => pyInt (l.totalCost * 100))).sum : ℚ)
  let nM := (((selected.map (fun l => l.machineId)).dedup).length : ℚ)
  let nPS := (((selected.map (fun l => (l.printingSheet.width, l.printingSheet.length))).dedup).length : ℚ)
  let nFS := (((selected.map (fun l => (l.materialNeeds.factorySize.width, l.materialNeeds.factorySize.length))).dedup).length : ℚ)
  ((p.differentMachinePenalty : ℚ) * (nM - 1) + (p.differentPressSheetPenalty : ℚ) * (nPS - 1) +
   (p.differentFactorySheetPenalty : ℚ) * (nFS - 1)) * tc / 100

/-- The count of distinct factory sheets actually bound by the selected
layouts (each priced layout's chosen factory size). -/
def distinctFactorySheets (selected : List PricedLayout) : ℕ :=
  ((selected.map (fun l => (l.materialNeeds.factorySize.width, l.materialNeeds.factorySize.length))).dedup).length

/-! Helper lemmas for the numeric primitives. -/

theorem pyInt_of_nonneg {q : ℚ} (h : 0 ≤ q) : pyInt q = ⌊q⌋ := by
  unfold pyInt
  rw [if_neg (not_lt.mpr h)]

theorem floor_eq_of {q : ℚ} {z : ℤ} (h1 : (z : ℚ) ≤ q) (h2 : q < z + 1) : ⌊q⌋ = z :=
  Int.floor_eq_iff.mpr ⟨h1, by exact_mod_cast h2⟩

theorem gridPositions_zero_cols (rows cw ch : ℕ) : gridPositions 0 rows cw ch = [] := by
  simp [gridPositions]

theorem gridPositions_zero_rows (cols cw ch : ℕ) : gridPositions cols 0 cw ch = [] := by
  simp [gridPositions]

/-! Concrete fixtures used by the end-to-end evaluations.  `machineE1`
and the E1-style single job follow the spec's scenario E1. -/

def machineE1 : Machine :=
  ⟨"M1", "MachineOne", some 4, ⟨720, 1020⟩, ⟨50, false⟩, some 500,
   ⟨30, false, false⟩, ⟨10, false, false⟩, ⟨20, false, false⟩⟩

def mat300 : Material := ⟨1, "cardboard300", 300, false, [⟨720, 1020, 800⟩]⟩

def jobA0 : Job := ⟨"A", 100, 150, 1000, true, mat300, 1, 0, false, false⟩

def cutsE1 : List AvailableCutMap := [⟨⟨720, 1020⟩, [⟨720, 1020⟩]⟩]

def optionsOne : Options := ⟨60, ⟨0, 0, 0⟩, 1⟩

/-- Scenario E1 as a full input: one job, one machine, one factory
size, the factory size itself as the only printing sheet. -/
def inputE1single : InputData := ⟨optionsOne, 1, [jobA0], [machineE1], cutsE1⟩

/-- An 800 × 800 job that exceeds the 720 × 1020 sheet in every
orientation (the spec's scenario E4). -/
def jobB0 : Job := ⟨"B", 800, 800, 1, true, mat300, 1, 0, false, false⟩

/-- Scenario E4: only the oversized job. -/
def inputE4 : InputData := ⟨optionsOne, 1, [jobB0], [machineE1], cutsE1⟩

/-- The oversized job alongside a feasible one. -/
def inputAB : InputData := ⟨optionsOne, 1, [jobA0, jobB0], [machineE1], cutsE1⟩
-- staging for C8 (will be appended to Spec2Proof.lean)

theorem div_mul_div_eq_zero_left {a b c d : ℕ} (h : a < b) : (a / b) * (c / d) = 0 := by
  rw [Nat.div_eq_of_lt h, Nat.zero_mul]

theorem div_mul_div_eq_zero_right {a b c d : ℕ} (h : c < d) : (a / b) * (c / d) = 0 := by
  rw [Nat.div_eq_of_lt h, Nat.mul_zero]

/-- C8 — the grid-cut operation returns the orientation achieving the
maximum of the two floor-product counts, with row-major positions, and
prefers the non-rotated orientation on ties. -/
theorem c8_grid_cut_max_orientation (W H w h : ℕ) :
    (packer_grid_layout W H w h).cutsPerSheet = max ((W / w) * (H / h)) ((W / h) * (H / w)) ∧
    ((W / h) * (H / w) ≤ (W / w) * (H / h) →
      (packer_grid_layout W H w h).positions = gridPositions (W / w) (H / h) w h) ∧
    ((W / w) * (H / h) < (W / h) * (H / w) →
      (packer_grid_layout W H w h).positions = gridPositions (W / h) (H / w) h w) := by
  unfold packer_grid_layout
  by_cases h0 : w = 0 ∨ h = 0
  · rw [if_pos h0]
    have hp1 : (W / w) * (H / h) = 0 := by
      rcases h0 with h0 | h0 <;> subst h0 <;> simp
    have hp2 : (W / h) * (H / w) = 0 := by
      rcases h0 with h0 | h0 <;> subst h0 <;> simp
    refine ⟨by rw [hp1, hp2]; rfl, ?_, ?_⟩
    · intro _
      rcases h0 with h0 | h0 <;> subst h0
      · simp [gridPositions_zero_cols]
      · simp [gridPositions_zero_rows, Nat.div_zero]
    · intro hc
      rw [hp1, hp2] at hc
      exact absurd hc (lt_irrefl 0)
  · rw [if_neg h0]
    push_neg at h0
    have hc1 : (if w ≤ W ∧ h ≤ H then (W / w) * (H / h) else 0) = (W / w) * (H / h) := by
      split_ifs with hg
      · rfl
      · rw [not_and_or, not_le, not_le] at hg
        rcases hg with hg | hg
        · exact (div_mul_div_eq_zero_left hg).symm
        · exact (div_mul_div_eq_zero_right hg).symm
    have hq1 : (if w ≤ W ∧ h ≤ H then gridPositions (W / w) (H / h) w h else []) = gridPositions (W / w) (H / h) w h := by
      split_ifs with hg
      · rfl
      · rw [not_and_or, not_le, not_le] at hg
        rcases hg with hg | hg
        · rw [Nat.div_eq_of_lt hg, gridPositions_zero_cols]
        · rw [Nat.div_eq_of_lt hg, gridPositions_zero_rows]
    have hc2 : (if h ≤ W ∧ w ≤ H then (W / h) * (H / w) else 0) = (W / h) * (H / w) := by
      split_ifs with hg
      · rfl
      · rw [not_and_or, not_le, not_le] at hg
        rcases hg with hg | hg
        · exact (div_mul_div_eq_zero_left hg).symm
        · exact (div_mul_div_eq_zero_right hg).symm
    have hq2 : (if h ≤ W ∧ w ≤ H then gridPositions (W / h) (H / w) h w else []) = gridPositions (W / h) (H / w) h w := by
      split_ifs with hg
      · rfl
      · rw [not_and_or, not_le, not_le] at hg
        rcases hg with hg | hg
        · rw [Nat.div_eq_of_lt hg, gridPositions_zero_cols]
        · rw [Nat.div_eq_of_lt hg, gridPositions_zero_rows]
    simp only [hc1, hq1, hc2, hq2]
    split_ifs with hcmp
    · exact ⟨(Nat.max_eq_left hcmp).symm, fun _ => rfl, fun hlt => absurd hcmp (not_le.mpr hlt)⟩
    · push_neg at hcmp
      exact ⟨(Nat.max_eq_right (le_of_lt hcmp)).symm,
             fun hle => absurd hcmp (not_lt.mpr hle), fun _ => rfl⟩

/-- Witness for C8 at the E1 geometry 720 × 1020 with a 100 × 150 job:
the non-rotated orientation (42 pieces) wins over the rotated one
(40 pieces). -/
theorem c8_grid_cut_max_orientation_witness :
    (720 / 150) * (1020 / 100) ≤ (720 / 100) * (1020 / 150) ∧
    (packer_grid_layout 720 1020 100 150).positions = gridPositions (720 / 100) (1020 / 150) 100 150 ∧
    (packer_grid_layout 720 1020 100 150).cutsPerSheet = 42 := by
  refine ⟨by decide, (c8_grid_cut_max_orientation 720 1020 100 150).2.1 (by decide), ?_⟩
  rw [(c8_grid_cut_max_orientation 720 1020 100 150).1]
  decide

/-- C6 — the printing cost of a run equals setup + wash + impression,
with chargeable sheets `max(netSheets, minImpressionsCharge ?? 0)` and
impression `(chargeable / 1000) · price · (2 if duplex else passes)`;
and on the E1 input (24 net sheets, minimum charge 500, one ink simplex
on a four-body machine, setup 30, wash 10, price-per-thousand 20) the
printing cost is exactly 50. -/
theorem c6_printing_cost :
    (∀ (m : Machine) (pn : PrintNeeds) (netSheets : ℕ),
      (calculate_printing_cost m pn netSheets).totalPrintingCost =
        m.setupCost.price * (if m.setupCost.perInk then (pn.totalPlates : ℚ) else (pn.passes : ℚ)) +
        m.washCost.price * (if m.washCost.perInk then (pn.totalPlates : ℚ) else (pn.passes : ℚ)) +
        ((max netSheets (m.minImpressionsCharge.getD 0) : ℕ) : ℚ) / 1000 * m.impressionCost.price *
          (if pn.duplex then 2 else (pn.passes : ℚ))) ∧
    get_printing_needs 1 0 false machineE1 = some ⟨false, 1, 1⟩ ∧
    (calculate_printing_cost machineE1 ⟨false, 1, 1⟩ 24).totalPrintingCost = 50 := by
  refine ⟨?_, ?_, ?_⟩
  · intro m pn netSheets
    unfold calculate_printing_cost
    cases hpd : pn.duplex
    · simp [hpd]
    · simp only [hpd, if_true]
  · unfold get_printing_needs machineE1
    norm_num [cdiv]
  · unfold calculate_printing_cost machineE1
    norm_num

/-! Characterization of the running-best fold (`pickFirstMinBy`). -/

/-- The running best of the source loop, with a concrete current best. -/
def loopMin {α : Type} {β : Type} [LinearOrder β] (key : α → β) : α → List α → α
  | b, [] => b
  | b, x :: xs => loopMin key (if key x < key b then x else b) xs

theorem foldl_stepMin_some {α : Type} {β : Type} [LinearOrder β] (key : α → β) :
    ∀ (l : List α) (b : α), l.foldl (stepMin key) (some b) = some (loopMin key b l) := by
  intro l
  induction l with
  | nil => intro b; rfl
  | cons x xs ih =>
    intro b
    have hstep : stepMin key (some b) x = some (if key x < key b then x else b) := by
      show (if key x < key b then some x else some b) = some (if key x < key b then x else b)
      split_ifs <;> rfl
    calc (x :: xs).foldl (stepMin key) (some b)
        = xs.foldl (stepMin key) (stepMin key (some b) x) := rfl
      _ = xs.foldl (stepMin key) (some (if key x < key b then x else b)) := by rw [hstep]
      _ = some (loopMin key (if key x < key b then x else b) xs) := ih _
      _ = some (loopMin key b (x :: xs)) := rfl

theorem pickFirstMinBy_cons {α : Type} {β : Type} [LinearOrder β] (key : α → β) (x : α) (xs : List α) :
    pickFirstMinBy key (x :: xs) = some (loopMin key x xs) := by
  have hbase : stepMin key (none : Option α) x = some x := rfl
  calc pickFirstMinBy key (x :: xs)
      = xs.foldl (stepMin key) (stepMin key none x) := rfl
    _ = xs.foldl (stepMin key) (some x) := by rw [hbase]
    _ = some (loopMin key x xs) := foldl_stepMin_some key xs x

theorem loopMin_mem {α : Type} {β : Type} [LinearOrder β] (key : α → β) :
    ∀ (l : List α) (b : α), loopMin key b l ∈ b :: l := by
  intro l
  induction l with
  | nil => intro b; exact List.mem_singleton.mpr rfl
  | cons x xs ih =>
    intro b
    unfold loopMin
    by_cases hlt : key x < key b
    · rw [if_pos hlt]
      rcases List.mem_cons.mp (ih x) with h | h
      · rw [h]
        exact List.mem_cons_of_mem b (List.mem_cons_self x xs)
      · exact List.mem_cons_of_mem b (List.mem_cons_of_mem x h)
    · rw [if_neg hlt]
      rcases List.mem_cons.mp (ih b) with h | h
      · rw [h]
        exact List.mem_cons_self b _
      · exact List.mem_cons_of_mem b (List.mem_cons_of_mem x h)

theorem loopMin_le {α : Type} {β : Type} [LinearOrder β] (key : α → β) :
    ∀ (l : List α) (b : α), ∀ x ∈ b :: l, key (loopMin key b l) ≤ key x := by
  intro l
  induction l with
  | nil =>
    intro b x hx
    rw [List.mem_singleton.mp hx]
    exact le_refl _
  | cons y ys ih =>
    intro b x hx
    unfold loopMin
    rcases List.mem_cons.mp hx with hx | hx
    · subst hx
      by_cases hlt : key y < key x
      · rw [if_pos hlt]
        exact le_of_lt (lt_of_le_of_lt (ih y y (List.mem_cons_self y ys)) hlt)
      · rw [if_neg hlt]
        exact ih x x (List.mem_cons_self x ys)
    · rcases List.mem_cons.mp hx with hx | hx
      · subst hx
        by_cases hlt : key x < key b
        · rw [if_pos hlt]
          exact ih x x (List.mem_cons_self x ys)
        · rw [if_neg hlt]
          exact le_trans (ih b b (List.mem_cons_self b ys)) (not_lt.mp hlt)
      · by_cases hlt : key y < key b
        · rw [if_pos hlt]
          exact ih y x (List.mem_cons.mpr (Or.inr hx))
        · rw [if_neg hlt]
          exact ih b x (List.mem_cons.mpr (Or.inr hx))

theorem loopMin_first {α : Type} {β : Type} [LinearOrder β] (key : α → β) :
    ∀ (l : List α) (b : α), ∃ l1 l2, b :: l = l1 ++ loopMin key b l :: l2 ∧
      ∀ y ∈ l1, key (loopMin key b l) < key y := by
  intro l
  induction l with
  | nil =>
    intro b
    exact ⟨[], [], rfl, by intro y hy; exact absurd hy (List.not_mem_nil y)⟩
  | cons x xs ih =>
    intro b
    unfold loopMin
    by_cases hlt : key x < key b
    · rw [if_pos hlt]
      obtain ⟨l1, l2, heq, hfirst⟩ := ih x
      refine ⟨b :: l1, l2, by rw [List.cons_append, ← heq], ?_⟩
      intro y hy
      rcases List.mem_cons.mp hy with hy | hy
      · subst hy
        exact lt_of_le_of_lt (loopMin_le key xs x x (List.mem_cons_self x xs)) hlt
      · exact hfirst y hy
    · rw [if_neg hlt]
      obtain ⟨l1, l2, heq, hfirst⟩ := ih b
      cases l1 with
      | nil =>
        simp only [List.nil_append] at heq
        have hhead : loopMin key b xs = b := by
          injection heq with h1 h2
          exact h1.symm
        refine ⟨[], x :: xs, ?_, by intro y hy; exact absurd hy (List.not_mem_nil y)⟩
        rw [List.nil_append, hhead]
      | cons u l1t =>
        have heq2 : b :: xs = u :: (l1t ++ loopMin key b xs :: l2) := by
          rw [heq]
          rfl
        injection heq2 with hbu htail
        have hb : key (loopMin key b xs) < key b := by
          have hfu := hfirst u (List.mem_cons_self u l1t)
          rw [← hbu] at hfu
          exact hfu
        refine ⟨b :: x :: l1t, l2, ?_, ?_⟩
        · conv_lhs => rw [htail]
          simp
        · intro y hy
          rcases List.mem_cons.mp hy with hy | hy
          · rw [hy]
            exact hb
          · rcases List.mem_cons.mp hy with hy | hy
            · rw [hy]
              exact lt_of_lt_of_le hb (not_lt.mp hlt)
            · exact hfirst y (List.mem_cons_of_mem u hy)

/-! Claim C9: factory-size choice in `calculate_material_needs`. -/

theorem calculate_material_needs_some {material : Material} {sheet : Size} {total : ℕ} {rate : ℚ} {res : MaterialNeeds}
    (h : calculate_material_needs material sheet total rate = some res) :
    ∃ best, pickFirstMinBy (fun c : MatChoice => c.needed) (materialOptionsFor material sheet total) = some best ∧
      res.factorySize = best.fs ∧ res.quantityNeeded = best.needed ∧ res.cuttingPlan = best.plan := by
  unfold calculate_material_needs at h
  cases hp : pickFirstMinBy (fun c : MatChoice => c.needed) (materialOptionsFor material sheet total) with
  | none =>
    rw [hp] at h
    exact absurd h (by simp)
  | some best =>
    rw [hp] at h
    refine ⟨best, rfl, ?_, ?_, ?_⟩ <;>
      · have := Option.some.inj h
        rw [← this]

/-- C9, amended — among the material's factory sizes with a positive
cuts-per-sheet the chosen one minimizes the required factory sheets,
but ties are broken by *position in the factorySizes list* (the first
minimizer wins), not by smaller factory area. -/
theorem c9_amended_material_choice (material : Material) (sheet : Size) (total : ℕ) (rate : ℚ) (res : MaterialNeeds)
    (h : calculate_material_needs material sheet total rate = some res) :
    (∀ c ∈ materialOptionsFor material sheet total, res.quantityNeeded ≤ c.needed) ∧
    (∃ l1 l2, materialOptionsFor material sheet total =
        l1 ++ (⟨res.factorySize, res.quantityNeeded, res.cuttingPlan⟩ : MatChoice) :: l2 ∧
      ∀ c ∈ l1, res.quantityNeeded < c.needed) := by
  obtain ⟨best, hp, hfs, hq, hplan⟩ := calculate_material_needs_some h
  have hres : (⟨res.factorySize, res.quantityNeeded, res.cuttingPlan⟩ : MatChoice) = best := by
    rw [hfs, hq, hplan]
  cases hopts : materialOptionsFor material sheet total with
  | nil =>
    rw [hopts] at hp
    exact absurd hp (by simp [pickFirstMinBy])
  | cons x xs =>
    rw [hopts] at hp
    rw [pickFirstMinBy_cons] at hp
    have hbest : best = loopMin (fun c : MatChoice => c.needed) x xs := (Option.some.inj hp).symm
    constructor
    · intro c hc
      rw [hq, hbest]
      exact loopMin_le (fun c : MatChoice => c.needed) xs x c (hopts ▸ hc)
    · obtain ⟨l1, l2, heq, hfirst⟩ := loopMin_first (fun c : MatChoice => c.needed) xs x
      refine ⟨l1, l2, ?_, ?_⟩
      · rw [hres, hbest]
        exact heq
      · intro c hc
        rw [hq, hbest]
        exact hfirst c hc

/-- A material with two factory sizes that tie on required factory
sheets; the second has the smaller area. -/
def mat0 : Material := ⟨2, "tiecase", 0, false, [⟨400, 300, 1⟩, ⟨200, 200, 1⟩]⟩

def sheet0 : Size := ⟨100, 100⟩

/-- C9, counterexample — both factory sizes require exactly 1 factory
sheet for 4 printing sheets, the second one (200 × 200) has the
strictly smaller area, yet the source picks the first-listed 400 × 300:
the tie is not broken by smaller factory area. -/
theorem c9_counterexample_tie_not_by_area :
    (calculate_material_needs mat0 sheet0 4 1).map
        (fun r => (r.factorySize.width, r.factorySize.length, r.quantityNeeded)) =
      some (400, 300, 1) ∧
    (materialOptionsFor mat0 sheet0 4).map (fun c => (c.fs.width, c.fs.length, c.needed)) =
      [(400, 300, 1), (200, 200, 1)] ∧
    200 * 200 < 400 * 300 := by
  refine ⟨?_, ?_, by norm_num⟩
  · rfl
  · rfl

def matRes0 : MaterialNeeds := (calculate_material_needs mat0 sheet0 4 1).getD ⟨0, ⟨0, 0, 0⟩, 0, ⟨0, []⟩⟩

theorem c9_amended_material_choice_witness :
    calculate_material_needs mat0 sheet0 4 1 = some matRes0 ∧
    ∀ c ∈ materialOptionsFor mat0 sheet0 4, matRes0.quantityNeeded ≤ c.needed := by
  have hsome : calculate_material_needs mat0 sheet0 4 1 = some matRes0 := rfl
  exact ⟨hsome, (c9_amended_material_choice mat0 sheet0 4 1 matRes0 hsome).1⟩

/-! Claim C7: the candidate generator's per-(subset, sheet) behaviour. -/

/-- The per-job cap `min(30, sheetArea / jobArea)` of the source (with
natural division; a zero job area gives cap 0, matching the source's
explicit zero-area skip). -/
def capFor (cut : Size) (j : Job) : ℕ :=
  min 30 ((cut.width * cut.length) / (j.width * j.length))

theorem quantityRanges_none_iff (subset : List Job) (cut : Size) :
    quantityRanges subset cut = none ↔ ∃ j ∈ subset, capFor cut j = 0 := by
  induction subset with
  | nil => simp [quantityRanges]
  | cons j rest ih =>
    unfold quantityRanges
    by_cases ha : j.width * j.length = 0
    · rw [if_pos ha]
      constructor
      · intro _
        refine ⟨j, List.mem_cons_self j rest, ?_⟩
        unfold capFor
        rw [ha, Nat.div_zero]
        rfl
      · intro _
        rfl
    · rw [if_neg ha]
      by_cases hq : min 30 ((cut.width * cut.length) / (j.width * j.length)) = 0
      · rw [if_pos hq]
        constructor
        · intro _
          exact ⟨j, List.mem_cons_self j rest, hq⟩
        · intro _
          rfl
      · rw [if_neg hq]
        constructor
        · intro h
          have hrest : quantityRanges rest cut = none := by
            cases hr : quantityRanges rest cut with
            | none => rfl
            | some rs =>
              rw [hr] at h
              exact absurd h (by simp)
          obtain ⟨j', hj', hcap⟩ := ih.mp hrest
          exact ⟨j', List.mem_cons_of_mem j hj', hcap⟩
        · rintro ⟨j', hj', hcap⟩
          rcases List.mem_cons.mp hj' with hj' | hj'
          · subst hj'
            exact absurd hcap hq
          · rw [ih.mpr ⟨j', hj', hcap⟩]
            rfl

theorem quantityRanges_some_eq {subset : List Job} {cut : Size} {rs : List (List ℕ)}
    (h : quantityRanges subset cut = some rs) :
    rs = subset.map (fun j => List.range' 1 (capFor cut j)) := by
  induction subset generalizing rs with
  | nil =>
    have : rs = [] := by simpa [quantityRanges] using h.symm
    rw [this, List.map_nil]
  | cons j rest ih =>
    unfold quantityRanges at h
    by_cases ha : j.width * j.length = 0
    · rw [if_pos ha] at h
      exact absurd h (by simp)
    · rw [if_neg ha] at h
      by_cases hq : min 30 ((cut.width * cut.length) / (j.width * j.length)) = 0
      · rw [if_pos hq] at h
        exact absurd h (by simp)
      · rw [if_neg hq] at h
        cases hr : quantityRanges rest cut with
        | none =>
          rw [hr] at h
          exact absurd h (by simp)
        | some rs' =>
          rw [hr] at h
          have hrs : rs = List.range' 1 (min 30 ((cut.width * cut.length) / (j.width * j.length))) :: rs' := by
            simpa using h.symm
          rw [hrs, ih hr, List.map_cons]
          rfl

theorem mem_cartProduct {rs : List (List ℕ)} {qs : List ℕ} :
    qs ∈ cartProduct rs ↔ List.Forall₂ (fun q r => q ∈ r) qs rs := by
  induction rs generalizing qs with
  | nil =>
    show qs ∈ [([] : List ℕ)] ↔ _
    rw [List.mem_singleton, List.forall₂_nil_right_iff]
  | cons r rest ih =>
    show qs ∈ r.flatMap (fun q => (cartProduct rest).map (fun t => q :: t)) ↔ _
    rw [List.mem_flatMap]
    constructor
    · rintro ⟨q, hq, ht⟩
      obtain ⟨t, htmem, rfl⟩ := List.mem_map.mp ht
      exact List.Forall₂.cons hq (ih.mp htmem)
    · intro h
      cases h with
      | cons hq ht => exact ⟨_, hq, List.mem_map.mpr ⟨_, ih.mpr ht, rfl⟩⟩

theorem forall₂_zip_ids {R : ℕ → Job → Prop} :
    ∀ {qs : List ℕ} {l : List Job}, List.Forall₂ R qs l →
      List.Forall₂ (fun (p : String × ℕ) (j : Job) => p.1 = j.id ∧ R p.2 j)
        ((l.map (fun j => j.id)).zip qs) l := by
  intro qs l h
  induction h with
  | nil => exact List.Forall₂.nil
  | cons hR _ ih => exact List.Forall₂.cons ⟨rfl, hR⟩ ih

theorem find?_split {α : Type} {p : α → Bool} {l : List α} {a : α} (h : l.find? p = some a) :
    ∃ l1 l2, l = l1 ++ a :: l2 ∧ (∀ x ∈ l1, p x = false) ∧ p a = true := by
  induction l with
  | nil => exact absurd h (by simp)
  | cons x xs ih =>
    by_cases hp : p x = true
    · rw [List.find?_cons_of_pos _ hp] at h
      obtain rfl := Option.some.inj h
      exact ⟨[], xs, rfl, by intro y hy; exact absurd hy (List.not_mem_nil y), hp⟩
    · rw [List.find?_cons_of_neg _ hp] at h
      obtain ⟨l1, l2, heq, hfalse, hpa⟩ := ih h
      refine ⟨x :: l1, l2, by rw [heq]; rfl, ?_, hpa⟩
      intro y hy
      rcases List.mem_cons.mp hy with hy | hy
      · rw [hy]
        exact Bool.eq_false_iff.mpr hp
      · exact hfalse y hy

instance candTirajeLeTotal : IsTotal Candidate (fun a b => a.tiraje ≤ b.tiraje) :=
  ⟨fun a b => Nat.le_total a.tiraje b.tiraje⟩

instance candTirajeLeTrans : IsTrans Candidate (fun a b => a.tiraje ≤ b.tiraje) :=
  ⟨fun _ _ _ h1 h2 => le_trans h1 h2⟩

/-- C7 — for each (job subset, printing sheet) pair: ranges are built
exactly when no per-job cap `min(30, sheetArea / jobArea)` is zero;
every surviving candidate stays within the caps and the area filter and
carries `tiraje = max ceil(quantity / q)`; candidates are tried in
ascending `tiraje` order; and the emitted layout (at most one — the
result is an `Option`) is the first candidate of that order that packs,
all earlier ones having failed to pack. -/
theorem c7_pair_enumeration (subset : List Job) (cut : Size) (allJobs : List Job) (packer : Packer) :
    (quantityRanges subset cut = none ↔ ∃ j ∈ subset, capFor cut j = 0) ∧
    (∀ c ∈ pairCandidates subset cut allJobs,
      List.Forall₂ (fun (p : String × ℕ) (j : Job) => p.1 = j.id ∧ 1 ≤ p.2 ∧ p.2 ≤ capFor cut j) c.recipe subset ∧
      (c.recipe.map (fun p => jobAreaOf allJobs p.1 * p.2)).sum ≤ cut.width * cut.length ∧
      c.tiraje = tirajeOf allJobs c.recipe) ∧
    (sortedCandidates subset cut allJobs).Sorted (fun a b => a.tiraje ≤ b.tiraje) ∧
    (sortedCandidates subset cut allJobs).Perm (pairCandidates subset cut allJobs) ∧
    (∀ cl, processPair subset cut allJobs packer = some cl →
      ∃ c pre post, sortedCandidates subset cut allJobs = pre ++ c :: post ∧
        (∀ c' ∈ pre, packOk allJobs packer cut c' = false) ∧
        packOk allJobs packer cut c = true ∧
        cl = ⟨c.recipe, cut, packer (expandRects allJobs c.recipe) cut⟩) := by
  refine ⟨quantityRanges_none_iff subset cut, ?_, ?_, ?_, ?_⟩
  · intro c hc
    unfold pairCandidates at hc
    cases hr : quantityRanges subset cut with
    | none =>
      rw [hr] at hc
      exact absurd hc (List.not_mem_nil c)
    | some rs =>
      rw [hr] at hc
      obtain ⟨qs, hqs, hsome⟩ := List.mem_filterMap.mp hc
      by_cases harea : (((subset.map (fun j => j.id)).zip qs).map (fun p => jobAreaOf allJobs p.1 * p.2)).sum ≤ cut.width * cut.length
      · rw [if_pos harea] at hsome
        obtain rfl := Option.some.inj hsome
        have hforall : List.Forall₂ (fun q (j : Job) => q ∈ List.range' 1 (capFor cut j)) qs subset := by
          have := mem_cartProduct.mp hqs
          rw [quantityRanges_some_eq hr] at this
          exact (List.forall₂_map_right_iff).mp this
        refine ⟨?_, harea, rfl⟩
        have := forall₂_zip_ids hforall
        refine this.imp ?_
        intro p j hp
        refine ⟨hp.1, ?_, ?_⟩
        · exact (List.mem_range'_1.mp hp.2).1
        · have := (List.mem_range'_1.mp hp.2).2
          omega
      · rw [if_neg harea] at hsome
        exact absurd hsome (by simp)
  · exact List.sorted_insertionSort (fun a b : Candidate => a.tiraje ≤ b.tiraje) (pairCandidates subset cut allJobs)
  · exact List.perm_insertionSort (fun a b : Candidate => a.tiraje ≤ b.tiraje) (pairCandidates subset cut allJobs)
  · intro cl hcl
    unfold processPair at hcl
    cases hpc : pairCandidates subset cut allJobs with
    | nil =>
      rw [hpc] at hcl
      exact absurd hcl (by simp)
    | cons c0 cs =>
      rw [hpc] at hcl
      obtain ⟨c, hfind, hcl'⟩ := Option.map_eq_some'.mp hcl
      obtain ⟨pre, post, heq, hfalse, htrue⟩ := find?_split hfind
      exact ⟨c, pre, post, heq, hfalse, htrue, hcl'.symm⟩

/-! Claim C2: the generator combines jobs of different materials.
Two jobs that share only a *shape* of factory size but have different
materials (ids 1 and 2). -/

def matM1 : Material := ⟨1, "matOne", 0, false, [⟨200, 100, 1⟩]⟩

def matM2 : Material := ⟨2, "matTwo", 0, false, [⟨200, 100, 1⟩]⟩

def jobJ1 : Job := ⟨"J1", 100, 100, 100, true, matM1, 1, 0, false, false⟩

def jobJ2 : Job := ⟨"J2", 100, 100, 100, true, matM2, 1, 0, false, false⟩

def inputC2 : InputData :=
  ⟨optionsOne, 1, [jobJ1, jobJ2], [machineE1], [⟨⟨200, 100⟩, [⟨200, 100⟩]⟩]⟩

theorem c7_pair_enumeration_witness :
    (quantityRanges [jobJ1, jobJ2] ⟨200, 100⟩ = none ↔ ∃ j ∈ [jobJ1, jobJ2], capFor ⟨200, 100⟩ j = 0) ∧
    (sortedCandidates [jobJ1, jobJ2] ⟨200, 100⟩ [jobJ1, jobJ2]).Sorted (fun a b => a.tiraje ≤ b.tiraje) ∧
    (pairCandidates [jobJ1, jobJ2] ⟨200, 100⟩ [jobJ1, jobJ2]).map (fun c => c.recipe) =
      [[("J1", 1), ("J2", 1)]] :=
  ⟨(c7_pair_enumeration [jobJ1, jobJ2] ⟨200, 100⟩ [jobJ1, jobJ2] shelfPacker).1,
   (c7_pair_enumeration [jobJ1, jobJ2] ⟨200, 100⟩ [jobJ1, jobJ2] shelfPacker).2.2.1,
   by decide⟩

/-- C2 (code bug) — the candidate generator does not group jobs by
material: on an input whose two jobs have materials 1 and 2 it emits a
single ganged layout containing both jobs.  (The source enumerates
`combinations(data.jobs, i)` over *all* jobs and merely takes the cut
catalogue from the first job's material.) -/
theorem c2_generator_mixes_materials :
    (generate_candidate_layouts inputC2 shelfPacker).map (fun cl => cl.jobs.map (fun p => p.1)) =
      [["J1", "J2"]] ∧
    (lookupJob inputC2.jobs jobJ1.id).map (fun j => j.material.id) = some 1 ∧
    (lookupJob inputC2.jobs jobJ2.id).map (fun j => j.material.id) = some 2 := by
  refine ⟨?_, ?_, ?_⟩ <;> decide

/-! Claim C4: a job that fits no sheet is silently dropped, with no
error and no demand constraint — the run completes normally. -/

/-- C4 (code bug) — on the E4 input (a single 800 × 800 job, maximum
machine/sheet 720 × 1020) the baseline finds no option and silently
skips the job, the generator produces nothing, and the pipeline returns
a normal output (baseline cost 0, no layouts, empty gangedSolutions)
for *every* solver behaviour: there is no infeasibility error path in
the source. -/
theorem c4_no_infeasibility_error :
    calculate_base_solution inputE4 = ([], 0) ∧
    baselineOptionsForJob inputE4 jobB0 = [] ∧
    generate_candidate_layouts inputE4 shelfPacker = [] ∧
    (∀ sols : List SolverSolution, runPipeline inputE4 shelfPacker sols = ⟨0, [], []⟩) := by
  refine ⟨rfl, rfl, rfl, ?_⟩
  intro sols
  with_unfolding_all rfl

/-! Claim C3: the factory-sheet penalty term of the CP objective. -/

/-- C3 (code bug) — evaluated on the plan consisting of the single E1
baseline layout with all three penalty percentages set to 10: exactly
one factory sheet (720 × 1020) is bound by the selected layouts, so the
claim's formula makes every penalty contribution zero; but the source
never stores the `'factory_sheet_used'` key on any layout, so the
model's `num_fs` is 0 and the objective's penalty term evaluates to
`tdiv(6304 · (0 - 1) · 10, 100) = -630` — a negative penalty — instead
of 0. -/
theorem c3_factory_sheet_penalty_negative :
    codeObjectivePenalty (calculate_base_solution inputE1single).1 ⟨10, 10, 10⟩ = -630 ∧
    distinctFactorySheets (calculate_base_solution inputE1single).1 = 1 ∧
    ((calculate_base_solution inputE1single).1).filterMap (fun l => l.factorySheetUsedKey) = [] ∧
    claimPenalty (calculate_base_solution inputE1single).1 ⟨10, 10, 10⟩ = 0 ∧
    codeObjectivePenalty (calculate_base_solution inputE1single).1 ⟨10, 10, 10⟩ ≠
      pyInt (claimPenalty (calculate_base_solution inputE1single).1 ⟨10, 10, 10⟩) := by
  refine ⟨?_, ?_, ?_, ?_, ?_⟩ <;> with_unfolding_all decide

/-! Claims C5 and C1: concrete solver runs through the pipeline. -/

/-- The viable layouts the plan solver receives on the E1 input. -/
def viableE1 : List PricedLayout :=
  buildViableLayouts inputE1single (calculate_base_solution inputE1single).1
    (generate_candidate_layouts inputE1single shelfPacker)

/-- The (unique) optimal CP solution on the E1 input: select the one
baseline layout; its integer cost is `int(63.042944 · 100) = 6304`. -/
def solE1 : SolverSolution := ⟨["base_A"], 6304⟩

/-- C5, counterexample — on the E1 input the float baseline total is
63.042944, the reported `baselineTotalCost` rounds to 63.04, and the
solver's solution (the baseline layout itself, truncated to integer
cents) costs exactly 63.04: it passes the `< base_cost` filter (63.04 <
63.042944) and is reported in `gangedSolutions`, yet it is *not*
strictly less than the reported `baselineTotalCost` — the claim's
strict bound fails against the rounded field. -/
theorem c5_counterexample_not_below_rounded_baseline :
    ValidSolverRun inputE1single.jobs viableE1 [solE1] ∧
    (runPipeline inputE1single shelfPacker [solE1]).baselineTotalCost = 6304/100 ∧
    ((runPipeline inputE1single shelfPacker [solE1]).gangedSolutions).map
        (fun e => e.gangedTotalCost) = [6304/100] ∧
    ¬ (∀ e ∈ (runPipeline inputE1single shelfPacker [solE1]).gangedSolutions,
        e.gangedTotalCost < (runPipeline inputE1single shelfPacker [solE1]).baselineTotalCost) := by
  refine ⟨?_, ?_, ?_, ?_⟩ <;> with_unfolding_all decide

/-- The viable layouts on the two-job input whose second job fits
nowhere. -/
def viableAB : List PricedLayout :=
  buildViableLayouts inputAB (calculate_base_solution inputAB).1
    (generate_candidate_layouts inputAB shelfPacker)

def solAB : SolverSolution := ⟨["base_A"], 6304⟩

/-- C1, counterexample — on the input with jobs A (feasible) and B
(800 × 800, fits nowhere), B gets no baseline layout and appears in no
candidate, so the source posts *no* demand constraint for it
(`if produced_expr:`).  The solution selecting only A's baseline layout
satisfies every posted constraint, is reported in `gangedSolutions`
(its truncated cost 63.04 beats the float baseline 63.042944), and its
plan produces 0 of job B against a demand of 1: the demand invariant
fails for a reported plan. -/
theorem c1_counterexample_uncovered_job :
    ValidSolverRun inputAB.jobs viableAB [solAB] ∧
    jobB0 ∈ inputAB.jobs ∧
    jobB0.quantity = 1 ∧
    jobHasLayout viableAB jobB0 = false ∧
    ((runPipeline inputAB shelfPacker [solAB]).gangedSolutions).map
        (fun e => producedOfPlan viableAB e.productionPlan jobB0) = [0] ∧
    (runPipeline inputAB shelfPacker [solAB]).gangedSolutions ≠ [] := by
  refine ⟨?_, ?_, ?_, ?_, ?_, ?_⟩ <;> with_unfolding_all decide

/-! Claim C10: integer-cents truncation in the solver versus 2-decimal
rounding of the per-item costs. -/

def matC10 : Material := ⟨3, "freeStock", 300, false, [⟨720, 1020, 0⟩]⟩

def jobC10 : Job := ⟨"C", 700, 1000, 3, true, matC10, 1, 0, false, false⟩

def machC10 : Machine :=
  ⟨"M2", "MachineTwo", some 1, ⟨720, 1020⟩, ⟨0, false⟩, none,
   ⟨10, false, false⟩, ⟨0, false, false⟩, ⟨2, false, false⟩⟩

/-- A run whose single layout costs 10.006: truncated cents give 10.00,
2-decimal rounding gives 10.01. -/
def inputC10 : InputData := ⟨optionsOne, 1, [jobC10], [machC10], cutsE1⟩

def viableC10 : List PricedLayout :=
  buildViableLayouts inputC10 (calculate_base_solution inputC10).1
    (generate_candidate_layouts inputC10 shelfPacker)

def solC10 : SolverSolution := ⟨["base_C"], 1000⟩

theorem sum_intCast_div (l : List ℤ) :
    ((l.sum : ℤ) : ℚ) / 100 = (l.map (fun z : ℤ => (z : ℚ) / 100)).sum := by
  induction l with
  | nil => simp
  | cons x xs ih =>
    rw [List.sum_cons, List.map_cons, List.sum_cons, ← ih]
    push_cast
    rw [add_div]

/-- C10 — for every reported solution, `gangedTotalCost` is the sum of
the selected layouts' float costs each truncated to whole cents
(`⌊100 · cost⌋ / 100`), while each `costForThisPlanItem` is the same
cost rounded half-even to 2 decimals; on a concrete run (one layout
costing 10.006) the two aggregates differ: 10.00 versus 10.01. -/
theorem c10_truncated_cents_vs_rounded_items :
    (∀ (jobs : List Job) (viable : List PricedLayout) (sols : List SolverSolution) (sol : SolverSolution),
      ValidSolverRun jobs viable sols → sol ∈ sols → (∀ l ∈ viable, 0 ≤ l.totalCost) →
      (solutionEntry viable sol).gangedTotalCost =
        ((viable.filter (fun l => layoutSelected sol l)).map
          (fun l => (⌊l.totalCost * 100⌋ : ℚ) / 100)).sum ∧
      (solutionEntry viable sol).productionPlan.map (fun it => it.costForThisPlanItem) =
        (viable.filter (fun l => layoutSelected sol l)).map (fun l => round2 l.totalCost)) ∧
    ValidSolverRun inputC10.jobs viableC10 [solC10] ∧
    (solutionEntry viableC10 solC10).gangedTotalCost = 1000/100 ∧
    ((solutionEntry viableC10 solC10).productionPlan.map
        (fun it => it.costForThisPlanItem)).sum = 1001/100 ∧
    (solutionEntry viableC10 solC10).gangedTotalCost ≠
      ((solutionEntry viableC10 solC10).productionPlan.map
        (fun it => it.costForThisPlanItem)).sum := by
  refine ⟨?_, ?_, ?_, ?_, ?_⟩
  · intro jobs viable sols sol hvalid hsol hnonneg
    have hcost : sol.cost = solutionCostOf viable sol := (hvalid.2 sol hsol).2.2
    constructor
    · show (sol.cost : ℚ) / 100 = _
      rw [hcost]
      unfold solutionCostOf
      rw [sum_intCast_div, List.map_map]
      apply congrArg List.sum
      apply List.map_congr_left
      intro l hl
      have hl' : l ∈ viable := (List.mem_filter.mp hl).1
      have h0 : (0 : ℚ) ≤ l.totalCost * 100 := by
        have := hnonneg l hl'
        positivity
      show (pyInt (l.totalCost * 100) : ℚ) / 100 = _
      rw [pyInt_of_nonneg h0]
    · show ((viable.filter (fun l => layoutSelected sol l)).map
          (fun l => (⟨l.layoutId, l.netSheets, round2 l.totalCost⟩ : PlanItem))).map
            (fun it => it.costForThisPlanItem) = _
      rw [List.map_map]
      rfl
  · with_unfolding_all decide
  · with_unfolding_all decide
  · with_unfolding_all decide
  · with_unfolding_all decide

theorem c10_truncated_cents_vs_rounded_items_witness :
    (solutionEntry viableC10 solC10).gangedTotalCost =
      ((viableC10.filter (fun l => layoutSelected solC10 l)).map
        (fun l => (⌊l.totalCost * 100⌋ : ℚ) / 100)).sum ∧
    (solutionEntry viableC10 solC10).productionPlan.map (fun it => it.costForThisPlanItem) =
      (viableC10.filter (fun l => layoutSelected solC10 l)).map (fun l => round2 l.totalCost) :=
  (c10_truncated_cents_vs_rounded_items).1 inputC10.jobs viableC10 [solC10] solC10
    (by with_unfolding_all decide) (List.mem_singleton.mpr rfl)
    (by with_unfolding_all decide)

/-! Membership and ordering facts about `gangedOutput`. -/

theorem mem_gangedOutput {baseCost : ℚ} {k : ℕ} {viable : List PricedLayout}
    {sols : List SolverSolution} {e : GangedEntry}
    (he : e ∈ gangedOutput baseCost k viable sols) :
    ∃ sol ∈ sols, e = solutionEntry viable sol ∧ e.gangedTotalCost < baseCost := by
  unfold gangedOutput at he
  by_cases hv : viable.isEmpty
  · rw [if_pos hv] at he
    exact absurd he (List.not_mem_nil e)
  · rw [if_neg hv] at he
    have h1 := List.mem_of_mem_take he
    have h2 := ((List.perm_insertionSort
      (fun a b : GangedEntry => a.gangedTotalCost ≤ b.gangedTotalCost) _).mem_iff).mp h1
    obtain ⟨hmem, hpass⟩ := List.mem_filter.mp h2
    obtain ⟨sol, hsol, rfl⟩ := List.mem_map.mp hmem
    exact ⟨sol, hsol, rfl, of_decide_eq_true hpass⟩

theorem find?_layoutId_nodup {viable : List PricedLayout} {l : PricedLayout}
    (hnodup : (viable.map (fun x => x.layoutId)).Nodup) (hl : l ∈ viable) :
    viable.find? (fun x => x.layoutId = l.layoutId) = some l := by
  induction viable with
  | nil => exact absurd hl (List.not_mem_nil l)
  | cons y ys ih =>
    rw [List.map_cons, List.nodup_cons] at hnodup
    rcases List.mem_cons.mp hl with hl | hl
    · subst hl
      rw [List.find?_cons_of_pos]
      exact decide_eq_true rfl
    · by_cases hy : y.layoutId = l.layoutId
      · exact absurd (hy ▸ List.mem_map.mpr ⟨l, hl, rfl⟩) hnodup.1
      · rw [List.find?_cons_of_neg]
        · exact ih hnodup.2 hl
        · simpa using hy

/-- Reading a reported plan back against the layout list recovers the
selected layouts' production, provided layout ids are unique (they are:
`base_{jobId}` and `ganging_{i}_{machineId}`). -/
theorem producedOfPlan_entry (viable : List PricedLayout) (sol : SolverSolution) (job : Job)
    (hnodup : (viable.map (fun l => l.layoutId)).Nodup) :
    producedOfPlan viable (solutionEntry viable sol).productionPlan job =
      producedTotal viable sol job := by
  unfold producedOfPlan producedTotal solutionEntry
  rw [List.filterMap_map]
  apply congrArg List.sum
  apply List.filterMap_congr
  intro l hl
  have hlv : l ∈ viable := (List.mem_filter.mp hl).1
  show (viable.find? (fun x => x.layoutId = l.layoutId)).bind
      (fun l' => (lookupCount l'.jobsInLayout job.id).map (fun c => c * l'.netSheets)) = _
  rw [find?_layoutId_nodup hnodup hlv]
  rfl

/-- C1, amended — the demand invariant holds for every reported plan
*for every job that appears in at least one viable layout* (those are
exactly the jobs for which the source posts a demand constraint; a job
appearing in no layout gets no constraint and can be under-produced,
see the counterexample). -/
theorem c1_amended_demand_for_covered_jobs
    (jobs : List Job) (viable : List PricedLayout) (sols : List SolverSolution)
    (baseCost : ℚ) (k : ℕ) (job : Job) (e : GangedEntry)
    (hvalid : ValidSolverRun jobs viable sols)
    (hnodup : (viable.map (fun l => l.layoutId)).Nodup)
    (hjob : job ∈ jobs)
    (hcov : jobHasLayout viable job = true)
    (he : e ∈ gangedOutput baseCost k viable sols) :
    job.quantity ≤ producedOfPlan viable e.productionPlan job := by
  obtain ⟨sol, hsol, rfl, _⟩ := mem_gangedOutput he
  have hdem : demandOk jobs viable sol = true := (hvalid.2 sol hsol).2.1
  have hj := List.all_eq_true.mp hdem job hjob
  rw [hcov] at hj
  have hq : job.quantity ≤ producedTotal viable sol job := by
    simpa using hj
  rw [producedOfPlan_entry viable sol job hnodup]
  exact hq

theorem c1_amended_demand_for_covered_jobs_witness :
    jobA0.quantity ≤
      producedOfPlan viableE1
        ((solutionEntry viableE1 solE1)).productionPlan jobA0 :=
  c1_amended_demand_for_covered_jobs inputE1single.jobs viableE1 [solE1]
    ((calculate_base_solution inputE1single).2) 1 jobA0 (solutionEntry viableE1 solE1)
    (by with_unfolding_all decide) (by with_unfolding_all decide)
    (by decide) (by with_unfolding_all decide)
    (by with_unfolding_all decide)

instance entryCostLeTotalInst : IsTotal GangedEntry (fun a b => a.gangedTotalCost ≤ b.gangedTotalCost) :=
  ⟨fun a b => le_total a.gangedTotalCost b.gangedTotalCost⟩

instance entryCostLeTransInst : IsTrans GangedEntry (fun a b => a.gangedTotalCost ≤ b.gangedTotalCost) :=
  ⟨fun _ _ _ h1 h2 => le_trans h1 h2⟩

instance solCostLtTransInst : IsTrans SolverSolution (fun a b => a.cost < b.cost) :=
  ⟨fun _ _ _ h1 h2 => lt_trans h1 h2⟩

/-- C5, amended — for every valid solver run, the reported
`gangedSolutions` are in strictly ascending cost order, every entry's
cost is strictly below the *unrounded* float baseline total (the value
the source compares against), and the list is empty when no solution
improves on it.  The entries need not be strictly below the *reported*
`baselineTotalCost`, which is that total rounded to 2 decimals — see
the counterexample. -/
theorem c5_amended_output_ordering
    (jobs : List Job) (viable : List PricedLayout) (sols : List SolverSolution)
    (baseCost : ℚ) (k : ℕ)
    (hvalid : ValidSolverRun jobs viable sols) :
    List.Pairwise (fun a b : GangedEntry => a.gangedTotalCost < b.gangedTotalCost)
      (gangedOutput baseCost k viable sols) ∧
    (∀ e ∈ gangedOutput baseCost k viable sols, e.gangedTotalCost < baseCost) ∧
    ((∀ sol ∈ sols, ¬ ((sol.cost : ℚ) / 100 < baseCost)) →
      gangedOutput baseCost k viable sols = []) := by
  refine ⟨?_, ?_, ?_⟩
  · have hchain := strictlyIncreasingCosts_chain' hvalid.1
    have hpw : sols.Pairwise (fun a b => a.cost < b.cost) := List.chain'_iff_pairwise.mp hchain
    have hentries : (sols.map (solutionEntry viable)).Pairwise
        (fun a b => a.gangedTotalCost < b.gangedTotalCost) := by
      rw [List.pairwise_map]
      refine hpw.imp ?_
      intro a b hab
      show (a.cost : ℚ) / 100 < (b.cost : ℚ) / 100
      have hq : (a.cost : ℚ) < (b.cost : ℚ) := by exact_mod_cast hab
      linarith
    have hfiltered := hentries.filter (fun e => decide (e.gangedTotalCost < baseCost))
    unfold gangedOutput
    by_cases hv : viable.isEmpty
    · rw [if_pos hv]
      exact List.Pairwise.nil
    · rw [if_neg hv]
      apply List.Pairwise.sublist (List.take_sublist k _)
      have hsorted := List.sorted_insertionSort
        (fun a b : GangedEntry => a.gangedTotalCost ≤ b.gangedTotalCost)
        ((sols.map (solutionEntry viable)).filter (fun e => decide (e.gangedTotalCost < baseCost)))
      have hperm := List.perm_insertionSort
        (fun a b : GangedEntry => a.gangedTotalCost ≤ b.gangedTotalCost)
        ((sols.map (solutionEntry viable)).filter (fun e => decide (e.gangedTotalCost < baseCost)))
      have hne_sorted : (List.insertionSort
          (fun a b : GangedEntry => a.gangedTotalCost ≤ b.gangedTotalCost)
          ((sols.map (solutionEntry viable)).filter
            (fun e => decide (e.gangedTotalCost < baseCost)))).Pairwise
          (fun a b => a.gangedTotalCost ≠ b.gangedTotalCost) := by
        refine (List.Perm.pairwise_iff ?_ hperm).mpr (hfiltered.imp ?_)
        · intro x y hxy
          exact hxy.symm
        · intro a b hab
          exact ne_of_lt hab
      exact (hsorted.and hne_sorted).imp (fun h => lt_of_le_of_ne h.1 h.2)
  · intro e he
    obtain ⟨sol, _, rfl, hlt⟩ := mem_gangedOutput he
    exact hlt
  · intro hnone
    unfold gangedOutput
    by_cases hv : viable.isEmpty
    · rw [if_pos hv]
    · rw [if_neg hv]
      have hfe : (sols.map (solutionEntry viable)).filter
          (fun e => decide (e.gangedTotalCost < baseCost)) = [] := by
        rw [List.filter_eq_nil_iff]
        intro e hemem
        obtain ⟨sol, hsol, rfl⟩ := List.mem_map.mp hemem
        simpa using hnone sol hsol
      rw [hfe]
      simp

theorem c5_amended_output_ordering_witness :
    List.Pairwise (fun a b : GangedEntry => a.gangedTotalCost < b.gangedTotalCost)
      (gangedOutput ((calculate_base_solution inputE1single).2) 1 viableE1 [solE1]) ∧
    (∀ e ∈ gangedOutput ((calculate_base_solution inputE1single).2) 1 viableE1 [solE1],
      e.gangedTotalCost < (calculate_base_solution inputE1single).2) := by
  have h := c5_amended_output_ordering inputE1single.jobs viableE1 [solE1]
    ((calculate_base_solution inputE1single).2) 1 (by with_unfolding_all decide)
  exact ⟨h.1, h.2.1⟩
